import Mathlib

/-!
Verification of the realtime session-coordination layer of the collaborative
whiteboard: room membership tracking (backend `socket.js`), the broadcast
router, the host/viewer permission controller, and the client object model
with its undo/redo engine (frontend `Auth.tsx` Board component).

JS objects used as dictionaries (`roomUsers`, `roomUsers[boardId]`) are
embedded as association lists with unique keys; socket.io channel membership
(`socket.join` / `socket.to` / `io.to`) is embedded as a set of
(connection, room) pairs; `socket.currentRoom` as an association list from
connection ids to room ids.  Event payloads the server never inspects are a
type parameter.  All definitions are executable.
-/

namespace WB

abbrev ConnId := String
abbrev RoomId := String

/-- Lookup in a JS-object-style association list (first matching key wins). -/
def alookup {β : Type} : List (String × β) → String → Option β
  | [], _ => none
  | (k, v) :: rest, key => if k = key then some v else alookup rest key

/-- Assignment `obj[key] = v`: replace the first binding of `key`, or append. -/
def aset {β : Type} : List (String × β) → String → β → List (String × β)
  | [], key, v => [(key, v)]
  | (k, w) :: rest, key, v =>
      if k = key then (k, v) :: rest else (k, w) :: aset rest key v

/-- Deletion `delete obj[key]`: remove the first binding of `key`. -/
def aerase {β : Type} : List (String × β) → String → List (String × β)
  | [], _ => []
  | (k, w) :: rest, key => if k = key then rest else (k, w) :: aerase rest key

theorem alookup_aset_self {β : Type} (l : List (String × β)) (k : String)
    (v : β) : alookup (aset l k v) k = some v := by
  induction l with
  | nil => simp [aset, alookup]
  | cons p rest ih =>
    by_cases h : p.1 = k
    · simp [aset, alookup, h]
    · simp [aset, alookup, h, ih]

theorem alookup_aset_ne {β : Type} (l : List (String × β)) (k k' : String)
    (v : β) (h : k' ≠ k) : alookup (aset l k v) k' = alookup l k' := by
  have h2 : ¬k = k' := Ne.symm h
  induction l with
  | nil => simp [aset, alookup, h2]
  | cons p rest ih =>
    by_cases hp : p.1 = k
    · simp [aset, alookup, hp, h2]
    · simp only [aset, hp, if_neg hp, alookup]
      by_cases hp' : p.1 = k'
      · simp [hp']
      · simp [hp', ih]

theorem alookup_eq_none {β : Type} (l : List (String × β)) (k : String) :
    alookup l k = none ↔ k ∉ l.map Prod.fst := by
  induction l with
  | nil => simp [alookup]
  | cons p rest ih =>
    by_cases h : p.1 = k
    · simp [alookup, h]
    · have h2 : ¬k = p.1 := fun hh => h hh.symm
      simp [alookup, h, ih, h2]

theorem alookup_isSome_of_mem {β : Type} (l : List (String × β)) (k : String)
    (h : k ∈ l.map Prod.fst) : ∃ v, alookup l k = some v := by
  rcases hl : alookup l k with _ | v
  · exact absurd ((alookup_eq_none l k).1 hl) (by simpa using h)
  · exact ⟨v, rfl⟩

theorem aset_not_mem {β : Type} (l : List (String × β)) (k : String) (v : β)
    (h : k ∉ l.map Prod.fst) : aset l k v = l ++ [(k, v)] := by
  induction l with
  | nil => simp [aset]
  | cons p rest ih =>
    simp only [List.map_cons, List.mem_cons] at h
    push_neg at h
    have h1 : ¬p.1 = k := fun hh => h.1 hh.symm
    simp [aset, h1, ih h.2]

theorem aerase_not_mem {β : Type} (l : List (String × β)) (k : String)
    (h : k ∉ l.map Prod.fst) : aerase l k = l := by
  induction l with
  | nil => simp [aerase]
  | cons p rest ih =>
    simp only [List.map_cons, List.mem_cons] at h
    push_neg at h
    have h1 : ¬p.1 = k := fun hh => h.1 hh.symm
    simp [aerase, h1, ih h.2]

theorem map_fst_aerase {β : Type} (l : List (String × β)) (k : String) :
    (aerase l k).map Prod.fst = (l.map Prod.fst).erase k := by
  induction l with
  | nil => simp [aerase]
  | cons p rest ih =>
    by_cases h : p.1 = k
    · simp [aerase, h, List.erase_cons_head]
    · simp [aerase, if_neg h, List.map_cons, List.erase_cons, h, ih]

theorem map_fst_aset_mem {β : Type} (l : List (String × β)) (k : String)
    (v : β) (h : k ∈ l.map Prod.fst) :
    (aset l k v).map Prod.fst = l.map Prod.fst := by
  induction l with
  | nil => simp at h
  | cons p rest ih =>
    by_cases hp : p.1 = k
    · simp [aset, hp]
    · have h' : k ∈ rest.map Prod.fst := by
        rcases (by simpa using h : k = p.1 ∨ k ∈ rest.map Prod.fst) with hh | hh
        · exact absurd hh.symm hp
        · exact hh
      simp [aset, hp, ih h']

theorem alookup_aerase_ne {β : Type} (l : List (String × β)) (k k' : String)
    (h : k' ≠ k) : alookup (aerase l k) k' = alookup l k' := by
  induction l with
  | nil => simp [aerase]
  | cons p rest ih =>
    by_cases hp : p.1 = k
    · have h2 : ¬k = k' := fun hh => h hh.symm
      simp [aerase, alookup, hp, h2]
    · simp only [aerase, if_neg hp, alookup]
      by_cases hp' : p.1 = k'
      · simp [hp']
      · simp [hp', ih]

theorem alookup_aerase_self {β : Type} (l : List (String × β)) (k : String)
    (h : (l.map Prod.fst).Nodup) : alookup (aerase l k) k = none := by
  induction l with
  | nil => simp [aerase, alookup]
  | cons p rest ih =>
    simp only [List.map_cons, List.nodup_cons] at h
    by_cases hp : p.1 = k
    · subst hp
      simp only [aerase, if_pos rfl]
      exact (alookup_eq_none rest p.1).2 h.1
    · simp [aerase, alookup, hp, ih h.2]

theorem mem_of_alookup_eq_some {β : Type} (l : List (String × β)) (k : String)
    (v : β) (h : alookup l k = some v) : (k, v) ∈ l := by
  induction l with
  | nil => simp [alookup] at h
  | cons p rest ih =>
    by_cases hp : p.1 = k
    · obtain ⟨k0, v0⟩ := p
      cases hp
      simp only [alookup, if_pos rfl, Option.some.injEq] at h
      cases h
      exact List.mem_cons_self _ _
    · simp only [alookup, if_neg hp] at h
      exact List.mem_cons_of_mem _ (ih h)

theorem aerase_sublist {β : Type} (l : List (String × β)) (k : String) :
    (aerase l k).Sublist l := by
  induction l with
  | nil => simp [aerase]
  | cons p rest ih =>
    by_cases hp : p.1 = k
    · have he : aerase (p :: rest) k = rest := by simp [aerase, hp]
      rw [he]
      exact List.sublist_cons_self p rest
    · simpa [aerase, hp] using ih.cons₂ p

/-- JS truthiness test for an optional room id: `undefined` and `''` are falsy. -/
def falsyS : Option String → Bool
  | none => true
  | some s => s = ""

/-- Member metadata stored in `roomUsers[boardId][socket.id]`. -/
structure User where
  id : ConnId
  name : String
  color : String
deriving DecidableEq, Repr

/-- Messages the coordinator emits to individual connections.  `α` is the type
of relay payloads, which the server forwards without inspection. -/
inductive SMsg (α : Type) where
  | userJoined (name : String)
  | userLeft (name : String)
  | roomUsersMsg (users : List User)
  | cursorRemove (userId : ConnId)
  | cursorUpdate (userId name color : String) (x y : Int)
  | drawUpdate (data : α)
  | objectAdded (data : α)
  | chatMsg (data : α)
  | stickyUpdated (data : α)
  | drawPermission (granted : Bool)
deriving DecidableEq, Repr

/-- The coordinator's mutable state (backend `socket.js`): the module-level
`roomUsers` dictionary, socket.io channel membership, each socket's
`currentRoom` / `userName` / `userColor` fields, and the set of live sockets. -/
structure SrvState where
  roomUsers : List (RoomId × List (ConnId × User))
  channels : List (ConnId × RoomId)
  currentRoom : List (ConnId × RoomId)
  names : List (ConnId × String)
  colors : List (ConnId × String)
  conns : List ConnId
deriving DecidableEq, Repr

def SrvState.empty : SrvState := ⟨[], [], [], [], [], []⟩

/-- Connections a `io.to(r)` broadcast reaches: live sockets in channel `r`. -/
def channelMembers (st : SrvState) (r : RoomId) : List ConnId :=
  st.conns.filter (fun c => (c, r) ∈ st.channels)

/-- Connections whose `currentRoom` is `r` — the set currently joined to `r`. -/
def joinedTo (st : SrvState) (r : RoomId) : List ConnId :=
  st.conns.filter (fun c => alookup st.currentRoom c = some r)

/-- The member record built by the `joinRoom` handler, with the synthetic
name `User-<first 4 chars of the socket id>` and color `#00d4ff` defaults
(`userName || ...`, `userColor || ...`; the empty string is falsy). -/
def userOf (c : ConnId) (n col : Option String) : User :=
  { id := c
    name := match n with
      | some s => if s = "" then "User-" ++ c.take 4 else s
      | none => "User-" ++ c.take 4
    color := match col with
      | some s => if s = "" then "#00d4ff" else s
      | none => "#00d4ff" }

/-- The `joinRoom` handler: `socket.join(boardId)`, create the room's map on
first use, store the member record, set `socket.currentRoom`, notify the other
members with `userJoined`, and broadcast the full member list (`roomUsers`)
to every channel member including the joiner. -/
def handleJoin {α : Type} (st : SrvState) (c : ConnId) (r : RoomId)
    (n col : Option String) : SrvState × List (ConnId × SMsg α) :=
  let channels' := if (c, r) ∈ st.channels then st.channels else st.channels ++ [(c, r)]
  let room0 := (alookup st.roomUsers r).getD []
  let u := userOf c n col
  let room1 := aset room0 c u
  let st' : SrvState :=
    { roomUsers := aset st.roomUsers r room1
      channels := channels'
      currentRoom := aset st.currentRoom c r
      names := aset st.names c u.name
      colors := aset st.colors c u.color
      conns := if c ∈ st.conns then st.conns else st.conns ++ [c] }
  let members := channelMembers st' r
  (st',
    (members.filter (fun m => m ≠ c)).map (fun m => (m, SMsg.userJoined u.name))
      ++ members.map (fun m => (m, SMsg.roomUsersMsg (room1.map Prod.snd))))

/-- The `cursorMove` handler: dropped if the socket has no (truthy) current
room, otherwise relayed as `cursorUpdate` to the other channel members with
the stored name/color as fallbacks. -/
def handleCursorMove {α : Type} (st : SrvState) (c : ConnId) (x y : Int)
    (n col : Option String) : SrvState × List (ConnId × SMsg α) :=
  if falsyS (alookup st.currentRoom c) then (st, [])
  else
    let r := (alookup st.currentRoom c).getD ""
    let nm := match n with
      | some s => if s = "" then ((alookup st.names c).getD "Anonymous") else s
      | none => (alookup st.names c).getD "Anonymous"
    let cl := match col with
      | some s => if s = "" then ((alookup st.colors c).getD "#00d4ff") else s
      | none => (alookup st.colors c).getD "#00d4ff"
    (st, ((channelMembers st r).filter (fun m => m ≠ c)).map
      (fun m => (m, SMsg.cursorUpdate c nm cl x y)))

/-- The `draw` handler: `socket.to(socket.currentRoom).emit('drawUpdate', data)`,
dropped when the current room is missing. -/
def handleDraw {α : Type} (st : SrvState) (c : ConnId) (data : α) :
    SrvState × List (ConnId × SMsg α) :=
  if falsyS (alookup st.currentRoom c) then (st, [])
  else
    let r := (alookup st.currentRoom c).getD ""
    (st, ((channelMembers st r).filter (fun m => m ≠ c)).map
      (fun m => (m, SMsg.drawUpdate data)))

/-- The `addObject` handler, identical relay shape with `objectAdded`. -/
def handleAddObject {α : Type} (st : SrvState) (c : ConnId) (data : α) :
    SrvState × List (ConnId × SMsg α) :=
  if falsyS (alookup st.currentRoom c) then (st, [])
  else
    let r := (alookup st.currentRoom c).getD ""
    (st, ((channelMembers st r).filter (fun m => m ≠ c)).map
      (fun m => (m, SMsg.objectAdded data)))

/-- The `chatMessage` handler: the room id comes from the payload
(`{ boardId, ...msg }`), the rest is relayed to the other channel members. -/
def handleChat {α : Type} (st : SrvState) (c : ConnId) (bid : Option String)
    (msg : α) : SrvState × List (ConnId × SMsg α) :=
  if falsyS bid then (st, [])
  else
    let r := bid.getD ""
    (st, ((channelMembers st r).filter (fun m => m ≠ c)).map
      (fun m => (m, SMsg.chatMsg msg)))

/-- Modelled from the spec: the coordinator-side relay of sticky-note text
updates is absent from `src/` (the backend `socket.js` has no `stickyUpdate`
handler; only the client emit in `saveStickyEdit` and the `stickyUpdated`
listener appear).  Spec §4.4 lists sticky-note text updates among the four
relayed event kinds of the Broadcast Router, delivered unmodified to every
member of the sender's room other than the sender. -/
def handleStickyUpdate {α : Type} (st : SrvState) (c : ConnId) (data : α) :
    SrvState × List (ConnId × SMsg α) :=
  if falsyS (alookup st.currentRoom c) then (st, [])
  else
    let r := (alookup st.currentRoom c).getD ""
    (st, ((channelMembers st r).filter (fun m => m ≠ c)).map
      (fun m => (m, SMsg.stickyUpdated data)))

/-- The part of a disconnect socket.io performs by itself: the socket leaves
its channels and its per-socket fields disappear with it. -/
def discBase (st : SrvState) (c : ConnId) : SrvState :=
  { roomUsers := st.roomUsers
    channels := st.channels.filter (fun p => p.1 ≠ c)
    currentRoom := aerase st.currentRoom c
    names := aerase st.names c
    colors := aerase st.colors c
    conns := st.conns.erase c }

/-- The `disconnect` handler.  socket.io removes a closing socket from its
channels before the handler's broadcasts run, so `io.to(boardId)` reaches the
remaining members.  The handler itself reads `socket.currentRoom`, deletes the
member record, emits `cursorRemove`, `userLeft` (when a name was recorded) and
the updated `roomUsers` list, and deletes the room when its map became empty. -/
def handleDisconnect {α : Type} (st : SrvState) (c : ConnId) :
    SrvState × List (ConnId × SMsg α) :=
  let base : SrvState := discBase st c
  match alookup st.currentRoom c with
  | none => (base, [])
  | some r =>
    if r = "" then (base, []) else
    match alookup st.roomUsers r with
    | none => (base, [])
    | some room0 =>
      let userName := (alookup room0 c).map User.name
      let room1 := aerase room0 c
      let roomUsers1 := aset st.roomUsers r room1
      let st' : SrvState :=
        { base with roomUsers := if room1 = [] then aerase roomUsers1 r else roomUsers1 }
      let members := channelMembers st' r
      (st',
        members.map (fun m => (m, SMsg.cursorRemove c))
          ++ (match userName with
              | some nm => members.map (fun m => (m, SMsg.userLeft nm))
              | none => [])
          ++ members.map (fun m => (m, SMsg.roomUsersMsg (room1.map Prod.snd))))

/-- Membership-changing coordinator operations (spec §4.1 join/leave). -/
inductive Op where
  | join (c : ConnId) (r : RoomId) (n col : Option String)
  | disc (c : ConnId)
deriving DecidableEq, Repr

def step (st : SrvState) : Op → SrvState × List (ConnId × SMsg Unit)
  | .join c r n col => handleJoin st c r n col
  | .disc c => handleDisconnect st c

def run (st : SrvState) : List Op → SrvState
  | [] => st
  | o :: rest => run (step st o).1 rest

/-- Spec §4.1 contract discipline: a `join` mints a fresh connection id
("connection-id assigned at connect time"), and room ids are truthy. -/
def wfOp (st : SrvState) : Op → Bool
  | .join c r _ _ => !(decide (c ∈ st.conns)) && !(r = "")
  | .disc c => decide (c ∈ st.conns)

def wfTrace : SrvState → List Op → Bool
  | _, [] => true
  | st, o :: rest => wfOp st o && wfTrace (step st o).1 rest

theorem alookup_append {β : Type} (l1 l2 : List (String × β)) (k : String) :
    alookup (l1 ++ l2) k =
      (match alookup l1 k with
       | some v => some v
       | none => alookup l2 k) := by
  induction l1 with
  | nil => simp [alookup]
  | cons p rest ih =>
    by_cases h : p.1 = k
    · simp [alookup, h]
    · simp [alookup, h, ih]

theorem mem_keys_of_alookup {β : Type} (l : List (String × β)) (k : String)
    (v : β) (h : alookup l k = some v) : k ∈ l.map Prod.fst := by
  by_contra hk
  rw [(alookup_eq_none l k).2 hk] at h
  cases h

theorem alookup_append_single_ne {β : Type} (l : List (String × β))
    (c x : String) (v : β) (h : x ≠ c) :
    alookup (l ++ [(c, v)]) x = alookup l x := by
  rw [alookup_append]
  cases alookup l x <;> simp [alookup, Ne.symm h]

theorem alookup_append_single_self {β : Type} (l : List (String × β))
    (c : String) (v : β) (h : alookup l c = none) :
    alookup (l ++ [(c, v)]) c = some v := by
  rw [alookup_append, h]
  simp [alookup]

/-- Coordinator-state invariant maintained by the join/leave handlers under
the spec's connection discipline: the registry's member map for each room
lists exactly the connections currently joined to it (same order), room maps
are never empty, channel membership mirrors `currentRoom`, member records
carry their own key as `id`, and the key lists are duplicate-free. -/
structure Inv (st : SrvState) : Prop where
  usersIds : ∀ r, ((alookup st.roomUsers r).getD []).map Prod.fst = joinedTo st r
  roomsNonempty : ∀ r m, alookup st.roomUsers r = some m → m ≠ []
  chanIff : ∀ c r, (c, r) ∈ st.channels ↔
    (c ∈ st.conns ∧ alookup st.currentRoom c = some r)
  connsNodup : st.conns.Nodup
  curLive : ∀ c r, alookup st.currentRoom c = some r → c ∈ st.conns ∧ r ≠ ""
  idMatch : ∀ r m, alookup st.roomUsers r = some m → ∀ p ∈ m, p.2.id = p.1
  rkeysNodup : (st.roomUsers.map Prod.fst).Nodup
  curKeysNodup : (st.currentRoom.map Prod.fst).Nodup

theorem inv_empty : Inv SrvState.empty := by
  constructor <;> simp [SrvState.empty, alookup, joinedTo, channelMembers]

theorem channelMembers_eq_joinedTo {st : SrvState} (h : Inv st) (r : RoomId) :
    channelMembers st r = joinedTo st r := by
  unfold channelMembers joinedTo
  refine List.filter_congr ?_
  intro c hc
  have := h.chanIff c r
  by_cases hm : alookup st.currentRoom c = some r
  · simp [hm, this.2 ⟨hc, hm⟩]
  · have : (c, r) ∉ st.channels := fun hmem => hm (this.1 hmem).2
    simp [this, hm]

/-- The coordinator state after a `joinRoom` by a fresh connection `c`. -/
def joinNext (st : SrvState) (c : ConnId) (r : RoomId) (n col : Option String) :
    SrvState :=
  { roomUsers := aset st.roomUsers r
      (((alookup st.roomUsers r).getD []) ++ [(c, userOf c n col)])
    channels := st.channels ++ [(c, r)]
    currentRoom := st.currentRoom ++ [(c, r)]
    names := aset st.names c (userOf c n col).name
    colors := aset st.colors c (userOf c n col).color
    conns := st.conns ++ [c] }

theorem handleJoin_fst {α : Type} {st : SrvState} {c : ConnId} {r : RoomId}
    {n col : Option String} (hInv : Inv st) (hc : c ∉ st.conns) :
    (@handleJoin α st c r n col).1 = joinNext st c r n col := by
  have hchan : (c, r) ∉ st.channels := fun hm => hc ((hInv.chanIff c r).1 hm).1
  have hcur : alookup st.currentRoom c = none := by
    rcases hl : alookup st.currentRoom c with _ | r0
    · rfl
    · exact absurd (hInv.curLive c r0 hl).1 hc
  have hckeys : c ∉ st.currentRoom.map Prod.fst := (alookup_eq_none _ _).1 hcur
  have hjkeys : c ∉ ((alookup st.roomUsers r).getD []).map Prod.fst := by
    rw [hInv.usersIds r]
    intro hm
    exact hc (List.mem_of_mem_filter hm)
  simp only [handleJoin, joinNext, if_neg hchan, if_neg hc,
    aset_not_mem _ _ _ hckeys, aset_not_mem _ _ _ hjkeys]

theorem handleJoin_snd {α : Type} {st : SrvState} {c : ConnId} {r : RoomId}
    {n col : Option String} (hInv : Inv st) (hc : c ∉ st.conns) :
    (@handleJoin α st c r n col).2 =
      ((channelMembers (joinNext st c r n col) r).filter (fun m => m ≠ c)).map
        (fun m => (m, SMsg.userJoined (userOf c n col).name))
      ++ (channelMembers (joinNext st c r n col) r).map
        (fun m => (m, SMsg.roomUsersMsg
          ((((alookup st.roomUsers r).getD []) ++ [(c, userOf c n col)]).map
            Prod.snd))) := by
  have hchan : (c, r) ∉ st.channels := fun hm => hc ((hInv.chanIff c r).1 hm).1
  have hcur : alookup st.currentRoom c = none := by
    rcases hl : alookup st.currentRoom c with _ | r0
    · rfl
    · exact absurd (hInv.curLive c r0 hl).1 hc
  have hckeys : c ∉ st.currentRoom.map Prod.fst := (alookup_eq_none _ _).1 hcur
  have hjkeys : c ∉ ((alookup st.roomUsers r).getD []).map Prod.fst := by
    rw [hInv.usersIds r]
    intro hm
    exact hc (List.mem_of_mem_filter hm)
  simp only [handleJoin, joinNext, if_neg hchan, if_neg hc,
    aset_not_mem _ _ _ hckeys, aset_not_mem _ _ _ hjkeys]

theorem inv_joinNext {st : SrvState} {c : ConnId} {r : RoomId}
    {n col : Option String} (hInv : Inv st) (hc : c ∉ st.conns) (hr : r ≠ "") :
    Inv (joinNext st c r n col) := by
  have hcur : alookup st.currentRoom c = none := by
    rcases hl : alookup st.currentRoom c with _ | r0
    · rfl
    · exact absurd (hInv.curLive c r0 hl).1 hc
  have hckeys : c ∉ st.currentRoom.map Prod.fst := (alookup_eq_none _ _).1 hcur
  have hcurSelf : alookup (st.currentRoom ++ [(c, r)]) c = some r :=
    alookup_append_single_self _ _ _ hcur
  have hfilter : ∀ r' : RoomId,
      st.conns.filter
        (fun x => alookup (st.currentRoom ++ [(c, r)]) x = some r') =
      joinedTo st r' := by
    intro r'
    refine List.filter_congr ?_
    intro x hx
    have hxc : x ≠ c := fun he => hc (he ▸ hx)
    simp [alookup_append_single_ne _ _ _ _ hxc]
  have hjoined : ∀ r' : RoomId, joinedTo (joinNext st c r n col) r' =
      joinedTo st r' ++ (if r' = r then [c] else []) := by
    intro r'
    have hsplit : joinedTo (joinNext st c r n col) r' =
        (st.conns.filter
          (fun x => alookup (st.currentRoom ++ [(c, r)]) x = some r')) ++
        ([c].filter
          (fun x => alookup (st.currentRoom ++ [(c, r)]) x = some r')) := by
      unfold joinedTo joinNext
      rw [List.filter_append]
    rw [hsplit, hfilter r']
    by_cases hreq : r' = r
    · subst hreq
      simp [hcurSelf]
    · have hne : ¬(alookup (st.currentRoom ++ [(c, r)]) c = some r') := by
        rw [hcurSelf]
        intro hh
        exact hreq (Option.some.inj hh).symm
      simp [hne, hreq]
  constructor
  · intro r'
    by_cases hreq : r' = r
    · subst hreq
      rw [hjoined r']
      simp only [joinNext, alookup_aset_self, Option.getD_some, if_pos rfl]
      rw [List.map_append, hInv.usersIds r']
      simp
    · rw [hjoined r']
      simp only [joinNext, alookup_aset_ne _ _ _ _ hreq, if_neg hreq,
        List.append_nil]
      exact hInv.usersIds r'
  · intro r' m hm
    by_cases hreq : r' = r
    · subst hreq
      simp only [joinNext, alookup_aset_self, Option.some.injEq] at hm
      subst hm
      simp
    · simp only [joinNext, alookup_aset_ne _ _ _ _ hreq] at hm
      exact hInv.roomsNonempty r' m hm
  · intro x r''
    simp only [joinNext, List.mem_append, List.mem_singleton, Prod.mk.injEq]
    constructor
    · rintro (hmem | ⟨hx, hrr⟩)
      · obtain ⟨hxc, hlook⟩ := (hInv.chanIff x r'').1 hmem
        have hxne : x ≠ c := fun he => hc (he ▸ hxc)
        exact ⟨Or.inl hxc, by rw [alookup_append_single_ne _ _ _ _ hxne]; exact hlook⟩
      · subst hx; subst hrr
        exact ⟨Or.inr rfl, hcurSelf⟩
    · rintro ⟨hx | hx, hlook⟩
      · have hxne : x ≠ c := fun he => hc (he ▸ hx)
        rw [alookup_append_single_ne _ _ _ _ hxne] at hlook
        exact Or.inl ((hInv.chanIff x r'').2 ⟨hx, hlook⟩)
      · subst hx
        rw [hcurSelf] at hlook
        cases hlook
        exact Or.inr ⟨rfl, rfl⟩
  · simp only [joinNext]
    simp [List.nodup_append, hInv.connsNodup, hc]
  · intro x r'' hlook
    simp only [joinNext] at hlook ⊢
    by_cases hxc : x = c
    · subst hxc
      rw [hcurSelf] at hlook
      cases hlook
      exact ⟨by simp, hr⟩
    · rw [alookup_append_single_ne _ _ _ _ hxc] at hlook
      obtain ⟨h1, h2⟩ := hInv.curLive x r'' hlook
      exact ⟨by simp [h1], h2⟩
  · intro r' m hm p hp
    by_cases hreq : r' = r
    · subst hreq
      simp only [joinNext, alookup_aset_self, Option.some.injEq] at hm
      subst hm
      rcases List.mem_append.1 hp with hp | hp
      · rcases hRU : alookup st.roomUsers r' with _ | m0
        · rw [hRU] at hp; simp at hp
        · rw [hRU] at hp
          exact hInv.idMatch r' m0 hRU p hp
      · rcases List.mem_singleton.1 hp with rfl
        rfl
    · simp only [joinNext, alookup_aset_ne _ _ _ _ hreq] at hm
      exact hInv.idMatch r' m hm p hp
  · simp only [joinNext]
    by_cases hrk : r ∈ st.roomUsers.map Prod.fst
    · rw [map_fst_aset_mem _ _ _ hrk]
      exact hInv.rkeysNodup
    · rw [aset_not_mem _ _ _ hrk]
      simp [List.nodup_append, hInv.rkeysNodup, hrk]
  · simp only [joinNext, List.map_append]
    simp [List.nodup_append, hInv.curKeysNodup, hckeys]

theorem joinedTo_discBase {st : SrvState} {c : ConnId} (hInv : Inv st)
    (r' : RoomId) :
    joinedTo (discBase st c) r' = (joinedTo st r').erase c := by
  have hmid : joinedTo (discBase st c) r' =
      st.conns.filter (fun a =>
        (decide (alookup (aerase st.currentRoom c) a = some r')) && (a != c)) := by
    unfold joinedTo discBase
    rw [hInv.connsNodup.erase_eq_filter, List.filter_filter]
  rw [hmid]
  have hright : (joinedTo st r').erase c =
      st.conns.filter (fun a =>
        (a != c) && (decide (alookup st.currentRoom a = some r'))) := by
    unfold joinedTo
    rw [(hInv.connsNodup.filter _).erase_eq_filter, List.filter_filter]
  rw [hright]
  refine List.filter_congr ?_
  intro x hx
  by_cases hxc : x = c
  · subst hxc
    simp
  · rw [alookup_aerase_ne _ _ _ hxc]
    rw [Bool.and_comm]

theorem chanIff_discBase {st : SrvState} {c : ConnId} (hInv : Inv st) :
    ∀ x r'', (x, r'') ∈ (discBase st c).channels ↔
      (x ∈ (discBase st c).conns ∧
        alookup (discBase st c).currentRoom x = some r'') := by
  intro x r''
  simp only [discBase, List.mem_filter]
  constructor
  · rintro ⟨hmem, hne⟩
    obtain ⟨hxc, hlook⟩ := (hInv.chanIff x r'').1 hmem
    have hxne : x ≠ c := by simpa using hne
    refine ⟨(hInv.connsNodup.mem_erase_iff).2 ⟨hxne, hxc⟩, ?_⟩
    rw [alookup_aerase_ne _ _ _ hxne]
    exact hlook
  · rintro ⟨hmem, hlook⟩
    obtain ⟨hxne, hxc⟩ := (hInv.connsNodup.mem_erase_iff).1 hmem
    rw [alookup_aerase_ne _ _ _ hxne] at hlook
    exact ⟨(hInv.chanIff x r'').2 ⟨hxc, hlook⟩, by simpa using hxne⟩

theorem curLive_discBase {st : SrvState} {c : ConnId} (hInv : Inv st) :
    ∀ x r'', alookup (discBase st c).currentRoom x = some r'' →
      x ∈ (discBase st c).conns ∧ r'' ≠ "" := by
  intro x r'' hlook
  simp only [discBase] at hlook ⊢
  by_cases hxc : x = c
  · subst hxc
    rw [alookup_aerase_self _ _ hInv.curKeysNodup] at hlook
    cases hlook
  · rw [alookup_aerase_ne _ _ _ hxc] at hlook
    obtain ⟨h1, h2⟩ := hInv.curLive x r'' hlook
    exact ⟨(hInv.connsNodup.mem_erase_iff).2 ⟨hxc, h1⟩, h2⟩

theorem inv_discBase {st : SrvState} {c : ConnId} (hInv : Inv st)
    (hcur : alookup st.currentRoom c = none) : Inv (discBase st c) := by
  have hnotJoined : ∀ r', c ∉ joinedTo st r' := by
    intro r' hm
    have := List.of_mem_filter hm
    rw [hcur] at this
    simp at this
  constructor
  · intro r'
    rw [joinedTo_discBase hInv r', List.erase_of_not_mem (hnotJoined r')]
    exact hInv.usersIds r'
  · exact hInv.roomsNonempty
  · exact chanIff_discBase hInv
  · exact hInv.connsNodup.erase c
  · exact curLive_discBase hInv
  · exact hInv.idMatch
  · exact hInv.rkeysNodup
  · simp only [discBase, map_fst_aerase]
    exact hInv.curKeysNodup.erase c

/-- The coordinator state after a disconnect of a connection whose current
room `r` holds member map `room0`. -/
def discNext (st : SrvState) (c : ConnId) (r : RoomId)
    (room0 : List (ConnId × User)) : SrvState :=
  { discBase st c with
      roomUsers :=
        if aerase room0 c = [] then aerase (aset st.roomUsers r (aerase room0 c)) r
        else aset st.roomUsers r (aerase room0 c) }

theorem handleDisconnect_eq {α : Type} {st : SrvState} {c : ConnId}
    {r : RoomId} {room0 : List (ConnId × User)}
    (hcur : alookup st.currentRoom c = some r) (hrne : r ≠ "")
    (hRU : alookup st.roomUsers r = some room0) :
    @handleDisconnect α st c =
      (discNext st c r room0,
        (channelMembers (discNext st c r room0) r).map
          (fun m => (m, SMsg.cursorRemove c))
        ++ (match (alookup room0 c).map User.name with
            | some nm => (channelMembers (discNext st c r room0) r).map
                (fun m => (m, SMsg.userLeft nm))
            | none => [])
        ++ (channelMembers (discNext st c r room0) r).map
          (fun m => (m, SMsg.roomUsersMsg ((aerase room0 c).map Prod.snd)))) := by
  simp only [handleDisconnect, hcur, hRU, if_neg hrne, discNext]

theorem inv_discNext {st : SrvState} {c : ConnId} {r : RoomId}
    {room0 : List (ConnId × User)} (hInv : Inv st)
    (hcur : alookup st.currentRoom c = some r)
    (hRU : alookup st.roomUsers r = some room0) :
    Inv (discNext st c r room0) := by
  have hrkeys : r ∈ st.roomUsers.map Prod.fst := mem_keys_of_alookup _ _ _ hRU
  have hids : room0.map Prod.fst = joinedTo st r := by
    have := hInv.usersIds r
    rw [hRU] at this
    simpa using this
  have hids1 : (aerase room0 c).map Prod.fst = (joinedTo st r).erase c := by
    rw [map_fst_aerase, hids]
  have hNotOther : ∀ r', r' ≠ r → c ∉ joinedTo st r' := by
    intro r' hne hm
    have := List.of_mem_filter hm
    rw [hcur] at this
    simp only [Option.some.injEq, decide_eq_true_eq] at this
    exact hne this.symm
  have hKeysAset : (aset st.roomUsers r (aerase room0 c)).map Prod.fst =
      st.roomUsers.map Prod.fst := map_fst_aset_mem _ _ _ hrkeys
  have hJ : ∀ r', joinedTo (discNext st c r room0) r' =
      (joinedTo st r').erase c := by
    intro r'
    have : joinedTo (discNext st c r room0) r' = joinedTo (discBase st c) r' := rfl
    rw [this, joinedTo_discBase hInv r']
  have hLookNext : ∀ r', alookup (discNext st c r room0).roomUsers r' =
      (if r' = r then (if aerase room0 c = [] then none else some (aerase room0 c))
       else alookup st.roomUsers r') := by
    intro r'
    simp only [discNext]
    by_cases hreq : r' = r
    · subst hreq
      rw [if_pos rfl]
      by_cases hempty : aerase room0 c = []
      · rw [if_pos hempty, if_pos hempty]
        apply alookup_aerase_self
        rw [hKeysAset]
        exact hInv.rkeysNodup
      · rw [if_neg hempty, if_neg hempty, alookup_aset_self]
    · rw [if_neg hreq]
      by_cases hempty : aerase room0 c = []
      · rw [if_pos hempty, alookup_aerase_ne _ _ _ hreq,
          alookup_aset_ne _ _ _ _ hreq]
      · rw [if_neg hempty, alookup_aset_ne _ _ _ _ hreq]
  constructor
  · intro r'
    rw [hLookNext r', hJ r']
    by_cases hreq : r' = r
    · subst hreq
      rw [if_pos rfl]
      by_cases hempty : aerase room0 c = []
      · rw [if_pos hempty]
        have : ((joinedTo st r').erase c) = [] := by
          rw [← hids1, hempty]
          simp
        rw [this]
        simp
      · rw [if_neg hempty]
        simpa using hids1
    · rw [if_neg hreq, List.erase_of_not_mem (hNotOther r' hreq)]
      exact hInv.usersIds r'
  · intro r' m hm
    rw [hLookNext r'] at hm
    by_cases hreq : r' = r
    · rw [if_pos hreq] at hm
      by_cases hempty : aerase room0 c = []
      · rw [if_pos hempty] at hm
        cases hm
      · rw [if_neg hempty] at hm
        cases hm
        exact hempty
    · rw [if_neg hreq] at hm
      exact hInv.roomsNonempty r' m hm
  · exact chanIff_discBase hInv
  · exact hInv.connsNodup.erase c
  · exact curLive_discBase hInv
  · intro r' m hm p hp
    rw [hLookNext r'] at hm
    by_cases hreq : r' = r
    · rw [if_pos hreq] at hm
      by_cases hempty : aerase room0 c = []
      · rw [if_pos hempty] at hm
        cases hm
      · rw [if_neg hempty] at hm
        cases hm
        exact hInv.idMatch r room0 hRU p ((aerase_sublist room0 c).subset hp)
    · rw [if_neg hreq] at hm
      exact hInv.idMatch r' m hm p hp
  · by_cases hempty : aerase room0 c = []
    · have : (discNext st c r room0).roomUsers =
          aerase (aset st.roomUsers r (aerase room0 c)) r := by
        simp only [discNext, if_pos hempty]
      rw [this, map_fst_aerase, hKeysAset]
      exact hInv.rkeysNodup.erase r
    · have : (discNext st c r room0).roomUsers =
          aset st.roomUsers r (aerase room0 c) := by
        simp only [discNext, if_neg hempty]
      rw [this, hKeysAset]
      exact hInv.rkeysNodup
  · simp only [discNext, discBase, map_fst_aerase]
    exact hInv.curKeysNodup.erase c

theorem roomMap_of_joined {st : SrvState} {c : ConnId} {r : RoomId}
    (hInv : Inv st) (hc : c ∈ st.conns)
    (hcur : alookup st.currentRoom c = some r) :
    ∃ room0, alookup st.roomUsers r = some room0 := by
  have hcm : c ∈ joinedTo st r := List.mem_filter.2 ⟨hc, by simp [hcur]⟩
  rcases hRU : alookup st.roomUsers r with _ | room0
  · exfalso
    have := hInv.usersIds r
    rw [hRU] at this
    simp only [Option.getD_none, List.map_nil] at this
    rw [← this] at hcm
    cases hcm
  · exact ⟨room0, rfl⟩

theorem inv_step {st : SrvState} {o : Op} (hInv : Inv st)
    (hwf : wfOp st o = true) : Inv (step st o).1 := by
  cases o with
  | join c r n col =>
    simp only [wfOp, Bool.and_eq_true, Bool.not_eq_true',
      decide_eq_false_iff_not, decide_eq_true_eq] at hwf
    obtain ⟨hc, hr⟩ := hwf
    have hfst : (step st (Op.join c r n col)).1 = joinNext st c r n col := by
      simp only [step]
      exact handleJoin_fst hInv hc
    rw [hfst]
    exact inv_joinNext hInv hc hr
  | disc c =>
    simp only [wfOp, decide_eq_true_eq] at hwf
    rcases hcur : alookup st.currentRoom c with _ | r
    · have hfst : (step st (Op.disc c)).1 = discBase st c := by
        simp only [step, handleDisconnect, hcur]
      rw [hfst]
      exact inv_discBase hInv hcur
    · have hrne : r ≠ "" := (hInv.curLive c r hcur).2
      obtain ⟨room0, hRU⟩ := roomMap_of_joined hInv hwf hcur
      have hfst : (step st (Op.disc c)).1 = discNext st c r room0 := by
        simp only [step]
        rw [handleDisconnect_eq hcur hrne hRU]
      rw [hfst]
      exact inv_discNext hInv hcur hRU

theorem inv_run {st : SrvState} {T : List Op} (hInv : Inv st)
    (hwf : wfTrace st T = true) : Inv (run st T) := by
  induction T generalizing st with
  | nil => exact hInv
  | cons o rest ih =>
    simp only [wfTrace, Bool.and_eq_true] at hwf
    exact ih (inv_step hInv hwf.1) hwf.2

theorem run_append (st : SrvState) (T : List Op) (o : Op) :
    run st (T ++ [o]) = (step (run st T) o).1 := by
  induction T generalizing st with
  | nil => simp [run]
  | cons o2 rest ih =>
    simp only [List.cons_append, run]
    exact ih _

/-- Every `roomUsers` broadcast emitted by a membership step lists exactly the
connections joined to the affected room in the post-state, goes to a member of
that room, and reaches every member of that room; and a join always delivers
such a list to the joiner itself. -/
theorem step_broadcast {st : SrvState} {o : Op} (hInv : Inv st)
    (hwf : wfOp st o = true) :
    (∀ tgt users, (tgt, SMsg.roomUsersMsg users) ∈ (step st o).2 →
      ∃ r, users.map User.id = joinedTo (step st o).1 r ∧
        tgt ∈ joinedTo (step st o).1 r ∧
        ∀ m, m ∈ joinedTo (step st o).1 r →
          (m, SMsg.roomUsersMsg users) ∈ (step st o).2) ∧
    (∀ c r n col, o = Op.join c r n col →
      ∃ users, (c, SMsg.roomUsersMsg users) ∈ (step st o).2) := by
  cases o with
  | join c r n col =>
    simp only [wfOp, Bool.and_eq_true, Bool.not_eq_true',
      decide_eq_false_iff_not, decide_eq_true_eq] at hwf
    obtain ⟨hc, hr⟩ := hwf
    have hfst : (step st (Op.join c r n col)).1 = joinNext st c r n col := by
      simp only [step]
      exact handleJoin_fst hInv hc
    have hsnd : (step st (Op.join c r n col)).2 =
        ((channelMembers (joinNext st c r n col) r).filter (fun m => m ≠ c)).map
          (fun m => (m, SMsg.userJoined (userOf c n col).name))
        ++ (channelMembers (joinNext st c r n col) r).map
          (fun m => (m, SMsg.roomUsersMsg
            ((((alookup st.roomUsers r).getD []) ++ [(c, userOf c n col)]).map
              Prod.snd))) := by
      simp only [step]
      exact handleJoin_snd hInv hc
    have hInv2 : Inv (joinNext st c r n col) := inv_joinNext hInv hc hr
    have hch : channelMembers (joinNext st c r n col) r =
        joinedTo (joinNext st c r n col) r :=
      channelMembers_eq_joinedTo hInv2 r
    have hlook2 : alookup (joinNext st c r n col).roomUsers r =
        some (((alookup st.roomUsers r).getD []) ++ [(c, userOf c n col)]) := by
      simp only [joinNext]
      exact alookup_aset_self _ _ _
    have husers : ((((alookup st.roomUsers r).getD []) ++
        [(c, userOf c n col)]).map Prod.snd).map User.id =
        joinedTo (joinNext st c r n col) r := by
      rw [List.map_map]
      have h1 : (((alookup st.roomUsers r).getD []) ++
          [(c, userOf c n col)]).map (User.id ∘ Prod.snd) =
          (((alookup st.roomUsers r).getD []) ++
            [(c, userOf c n col)]).map Prod.fst :=
        List.map_congr_left (fun p hp => hInv2.idMatch r _ hlook2 p hp)
      rw [h1]
      have h2 := hInv2.usersIds r
      rw [hlook2] at h2
      simpa using h2
    constructor
    · intro tgt users hmem
      rw [hsnd] at hmem
      rcases List.mem_append.1 hmem with hmem1 | hmem2
      · exfalso
        obtain ⟨m, _, heqp⟩ := List.mem_map.1 hmem1
        simp at heqp
      · obtain ⟨m, hm, heqp⟩ := List.mem_map.1 hmem2
        simp only [Prod.mk.injEq, SMsg.roomUsersMsg.injEq] at heqp
        obtain ⟨h1, h3⟩ := heqp
        subst h1
        refine ⟨r, ?_, ?_, ?_⟩
        · rw [hfst, ← h3]
          exact husers
        · rw [hfst, ← hch]
          exact hm
        · intro m2 hm2
          rw [hsnd]
          refine List.mem_append.2 (Or.inr (List.mem_map.2 ⟨m2, ?_, ?_⟩))
          · rw [hch]
            rw [hfst] at hm2
            exact hm2
          · rw [h3]
    · rintro c2 r2 n2 col2 heqo
      injection heqo with e1 e2 e3 e4
      subst e1; subst e2; subst e3; subst e4
      refine ⟨(((alookup st.roomUsers r).getD []) ++
        [(c, userOf c n col)]).map Prod.snd, ?_⟩
      rw [hsnd]
      refine List.mem_append.2 (Or.inr (List.mem_map.2 ⟨c, ?_, rfl⟩))
      refine List.mem_filter.2 ⟨?_, ?_⟩
      · simp [joinNext]
      · simp [joinNext]
  | disc c =>
    simp only [wfOp, decide_eq_true_eq] at hwf
    rcases hcur : alookup st.currentRoom c with _ | r
    · have hsnd : (step st (Op.disc c)).2 = [] := by
        simp only [step, handleDisconnect, hcur]
      constructor
      · intro tgt users hmem
        rw [hsnd] at hmem
        cases hmem
      · rintro c2 r2 n2 col2 heqo
        exact Op.noConfusion heqo
    · have hrne : r ≠ "" := (hInv.curLive c r hcur).2
      obtain ⟨room0, hRU⟩ := roomMap_of_joined hInv hwf hcur
      have hstep : step st (Op.disc c) =
          (discNext st c r room0,
            (channelMembers (discNext st c r room0) r).map
              (fun m => (m, SMsg.cursorRemove c))
            ++ (match (alookup room0 c).map User.name with
                | some nm => (channelMembers (discNext st c r room0) r).map
                    (fun m => (m, SMsg.userLeft nm))
                | none => [])
            ++ (channelMembers (discNext st c r room0) r).map
              (fun m => (m, SMsg.roomUsersMsg
                ((aerase room0 c).map Prod.snd)))) := by
        simp only [step]
        exact handleDisconnect_eq hcur hrne hRU
      have hfst : (step st (Op.disc c)).1 = discNext st c r room0 := by
        rw [hstep]
      have hsnd : (step st (Op.disc c)).2 =
          (channelMembers (discNext st c r room0) r).map
            (fun m => (m, SMsg.cursorRemove c))
          ++ (match (alookup room0 c).map User.name with
              | some nm => (channelMembers (discNext st c r room0) r).map
                  (fun m => (m, SMsg.userLeft nm))
              | none => [])
          ++ (channelMembers (discNext st c r room0) r).map
            (fun m => (m, SMsg.roomUsersMsg ((aerase room0 c).map Prod.snd))) := by
        rw [hstep]
      have hInv2 : Inv (discNext st c r room0) := inv_discNext hInv hcur hRU
      have hch : channelMembers (discNext st c r room0) r =
          joinedTo (discNext st c r room0) r :=
        channelMembers_eq_joinedTo hInv2 r
      have hids1 : (aerase room0 c).map Prod.fst = (joinedTo st r).erase c := by
        rw [map_fst_aerase]
        have h2 := hInv.usersIds r
        rw [hRU] at h2
        simp only [Option.getD_some] at h2
        rw [h2]
      have hJr : joinedTo (discNext st c r room0) r = (joinedTo st r).erase c := by
        have hredef : joinedTo (discNext st c r room0) r =
            joinedTo (discBase st c) r := rfl
        rw [hredef, joinedTo_discBase hInv r]
      have husers : (((aerase room0 c).map Prod.snd).map User.id) =
          joinedTo (discNext st c r room0) r := by
        rw [List.map_map]
        have h1 : (aerase room0 c).map (User.id ∘ Prod.snd) =
            (aerase room0 c).map Prod.fst :=
          List.map_congr_left (fun p hp =>
            hInv.idMatch r room0 hRU p ((aerase_sublist room0 c).subset hp))
        rw [h1, hids1, hJr]
      constructor
      · intro tgt users hmem
        rw [hsnd] at hmem
        rcases List.mem_append.1 hmem with hmem1 | hmem2
        · exfalso
          rcases List.mem_append.1 hmem1 with hmemA | hmemB
          · obtain ⟨m, _, heqp⟩ := List.mem_map.1 hmemA
            simp at heqp
          · rcases hname : (alookup room0 c).map User.name with _ | nm <;>
              rw [hname] at hmemB
            · cases hmemB
            · obtain ⟨m, _, heqp⟩ := List.mem_map.1 hmemB
              simp at heqp
        · obtain ⟨m, hm, heqp⟩ := List.mem_map.1 hmem2
          simp only [Prod.mk.injEq, SMsg.roomUsersMsg.injEq] at heqp
          obtain ⟨h1, h3⟩ := heqp
          subst h1
          refine ⟨r, ?_, ?_, ?_⟩
          · rw [hfst, ← h3]
            exact husers
          · rw [hfst, ← hch]
            exact hm
          · intro m2 hm2
            rw [hsnd]
            refine List.mem_append.2 (Or.inr (List.mem_map.2 ⟨m2, ?_, ?_⟩))
            · rw [hch]
              rw [hfst] at hm2
              exact hm2
            · rw [h3]
      · rintro c2 r2 n2 col2 heqo
        exact Op.noConfusion heqo

/-!
Permission Controller.  The backend under `src/` has no `setDrawPermission`
handler; only the client side appears (the `toggleAllowUser` emit and the
`drawPermission` / `allowedUsers` listeners in `Auth.tsx`), so the
coordinator side is modelled from the spec.
-/

/-- Per-room permission state: the Host connection (resolved asynchronously
from the persisted `ownerId`) and the authoritative allowed-drawer set. -/
structure PermState where
  host : List (RoomId × ConnId)
  allowed : List (RoomId × List ConnId)
deriving DecidableEq, Repr

/-- Modelled from the spec: the coordinator-side `setDrawPermission` handler
is absent from `src/` (only its client callers and listeners are).  Spec §4.3:
"`setDrawPermission(requesterId, targetId, granted)` is a no-op unless
`requesterId` currently holds Host state for that room; on success it updates
the authoritative allowed-set and sends a point-to-point notification to the
target connection only (not a room-wide broadcast)". -/
def setDrawPermission (ps : PermState) (r : RoomId) (requester target : ConnId)
    (granted : Bool) : PermState × List (ConnId × SMsg Unit) :=
  if alookup ps.host r = some requester then
    let cur := (alookup ps.allowed r).getD []
    let upd := if granted then (if target ∈ cur then cur else cur ++ [target])
               else cur.filter (fun u => u ≠ target)
    ({ ps with allowed := aset ps.allowed r upd },
     [(target, SMsg.drawPermission granted)])
  else (ps, [])

/-!
Client Object Model and Undo Engine, from the Board component in
`src/frontend/src/pages/Auth.tsx`.  The canvas-object union carries the
source's fields with integer coordinates; the circle constructor records the
squared drag diagonal (`dx*dx+dy*dy`) because the source's radius
`Math.sqrt(dx*dx+dy*dy)/2` is floating-point rendering geometry that no
claim inspects.  `Date.now()` is an explicit `now` argument used for ids.
Pure rendering state (preview shapes, zoom, toasts, cursors) is outside the
object model and not embedded.
-/

inductive Obj where
  | line (id : String) (points : List Int) (color : String) (strokeWidth : Int)
      (opacityPct : Int) (dash : Option (List Int))
  | eraser (id : String) (points : List Int) (strokeWidth : Int)
  | highlight (id : String) (points : List Int) (color : String) (strokeWidth : Int)
  | rectangle (id : String) (x y w h : Int) (fill : String)
  | circle (id : String) (x y diag2 : Int) (fill : String)
  | triangle (id : String) (points : List Int) (fill : String)
  | diamond (id : String) (x y size : Int) (fill : String)
  | arrow (id : String) (points : List Int) (color : String) (strokeWidth : Int)
  | straightline (id : String) (points : List Int) (color : String)
      (strokeWidth : Int) (dash : Option (List Int))
  | textShape (id : String) (x y : Int) (content : String) (color : String)
      (fontSize : Int) (fontFamily : String) (bold italic : Bool)
  | sticky (id : String) (x y : Int) (content : String) (bg : String)
  | image (id : String) (x y w h : Int) (src : String)
deriving DecidableEq, Repr

/-- The object's `id` field. -/
def Obj.oid : Obj → String
  | .line i _ _ _ _ _ => i
  | .eraser i _ _ => i
  | .highlight i _ _ _ => i
  | .rectangle i _ _ _ _ _ => i
  | .circle i _ _ _ _ => i
  | .triangle i _ _ => i
  | .diamond i _ _ _ _ => i
  | .arrow i _ _ _ => i
  | .straightline i _ _ _ _ => i
  | .textShape i _ _ _ _ _ _ _ _ => i
  | .sticky i _ _ _ _ => i
  | .image i _ _ _ _ _ => i

/-- The `o.type === 'sticky'` test. -/
def Obj.isSticky : Obj → Bool
  | .sticky _ _ _ _ _ => true
  | _ => false

/-- The spread `{ ...o, text }` on a sticky note. -/
def Obj.withText (t : String) : Obj → Obj
  | .sticky i x y _ bg => .sticky i x y t bg
  | o => o

inductive Tool where
  | pen | eraser | highlight | rectangle | circle | triangle | diamond
  | arrow | straightline | text | sticky | image
deriving DecidableEq, Repr

/-- Tools handled by the freehand (`isDrawingRef`) branches. -/
def penLike : Tool → Bool
  | .pen | .eraser | .highlight => true
  | _ => false

/-- Tools handled by the `shapeStart` branches. -/
def shapeLike : Tool → Bool
  | .rectangle | .circle | .triangle | .diamond | .arrow | .straightline => true
  | _ => false

inductive LineStyle where
  | solid | dashed | dotted
deriving DecidableEq, Repr

/-- `getDash()`. -/
def getDash : LineStyle → Option (List Int)
  | .dashed => some [12, 6]
  | .dotted => some [3, 6]
  | .solid => none

/-- Outbound socket events emitted by the Board component's handlers. -/
inductive COut where
  | draw (o : Obj)
  | addObject (o : Obj)
  | stickyUpdate (id : String) (text : String)
  | cursorMove (x y : Int) (name color : String) (isDrawing : Bool)
  | presenceUpdate (isDrawing : Bool)
deriving DecidableEq, Repr

/-- Local state of one participant's Board: the current page's ordered object
sequence, the undo/redo snapshot stacks, the role flags behind `canDraw`, and
the interaction state the mouse handlers read and write. -/
structure ClientState where
  objects : List Obj
  undoStack : List (List Obj)
  redoStack : List (List Obj)
  isHost : Bool
  isAllowedToDraw : Bool
  isReadOnly : Bool
  tool : Tool
  isDrawing : Bool
  livePoints : List Int
  shapeStart : Option (Int × Int)
  textPos : Option (Int × Int)
  textInput : String
  color : String
  strokeWidth : Int
  opacityPct : Int
  lineStyle : LineStyle
  stickyColor : String
  fontFamily : String
  fontSize : Int
  bold : Bool
  italic : Bool
deriving DecidableEq, Repr

/-- `const canDraw = isHost || isAllowedToDraw`. -/
def canDraw (st : ClientState) : Bool := st.isHost || st.isAllowedToDraw

/-- `saveToUndo`: push a full snapshot of the current sequence and clear redo. -/
def saveToUndo (st : ClientState) : ClientState :=
  { st with undoStack := st.undoStack ++ [st.objects], redoStack := [] }

/-- The mutating-action protocol every local mutation follows:
`saveToUndo(objects)` then `setObjects(prev => [...prev, obj])`. -/
def applyLocal (st : ClientState) (o : Obj) : ClientState :=
  let st1 := saveToUndo st
  { st1 with objects := st1.objects ++ [o] }

/-- `handleUndo`: no-op on an empty stack, otherwise pop the last snapshot,
push the current sequence onto redo, and restore the snapshot. -/
def handleUndo (st : ClientState) : ClientState :=
  match st.undoStack.getLast? with
  | none => st
  | some last =>
    { st with
        undoStack := st.undoStack.dropLast
        redoStack := st.redoStack ++ [st.objects]
        objects := last }

/-- `handleRedo`: the mirror of `handleUndo`. -/
def handleRedo (st : ClientState) : ClientState :=
  match st.redoStack.getLast? with
  | none => st
  | some next =>
    { st with
        redoStack := st.redoStack.dropLast
        undoStack := st.undoStack ++ [st.objects]
        objects := next }

/-- The stroke object finished by `handleMouseUp`'s freehand branch. -/
def mkStroke (st : ClientState) (pts : List Int) (now : Int) : Obj :=
  match st.tool with
  | .eraser => .eraser ("eraser-" ++ toString now) pts (st.strokeWidth * 5)
  | .highlight => .highlight ("hl-" ++ toString now) pts st.color (st.strokeWidth * 4)
  | _ => .line ("line-" ++ toString now) pts st.color st.strokeWidth
      st.opacityPct (getDash st.lineStyle)

/-- The discrete shape finished by `handleMouseUp`'s `shapeStart` branch
(`obj` stays `null` for non-shape tools). -/
def mkShape (st : ClientState) (s p : Int × Int) (now : Int) : Option Obj :=
  let dx := p.1 - s.1
  let dy := p.2 - s.2
  match st.tool with
  | .rectangle => some (.rectangle ("rect-" ++ toString now)
      (min p.1 s.1) (min p.2 s.2) |dx| |dy| st.color)
  | .circle => some (.circle ("circ-" ++ toString now) s.1 s.2
      (dx * dx + dy * dy) st.color)
  | .arrow => some (.arrow ("arrow-" ++ toString now)
      [s.1, s.2, p.1, p.2] st.color st.strokeWidth)
  | .straightline => some (.straightline ("sl-" ++ toString now)
      [s.1, s.2, p.1, p.2] st.color st.strokeWidth (getDash st.lineStyle))
  | .triangle => some (.triangle ("tri-" ++ toString now)
      [s.1, s.2 - |dy|, s.1 - |dx| / 2, s.2, s.1 + |dx| / 2, s.2] st.color)
  | .diamond => some (.diamond ("dia-" ++ toString now) s.1 s.2
      (max |dx| |dy|) st.color)
  | _ => none

/-- `handleMouseDown`: rejected outright for non-drawers
(`if (!canDraw || isReadOnly) return`), then dispatched on the tool —
freehand tools start a live stroke and emit `presenceUpdate`, shape tools
record `shapeStart`, the text tool opens the overlay, and the sticky tool
immediately places a note through the mutating-action protocol and emits it. -/
def handleMouseDown (st : ClientState) (x y now : Int) :
    ClientState × List COut :=
  if !canDraw st || st.isReadOnly then (st, [])
  else if penLike st.tool then
    ({ st with isDrawing := true, livePoints := [x, y] },
     [COut.presenceUpdate true])
  else if shapeLike st.tool then
    ({ st with shapeStart := some (x, y) }, [])
  else if st.tool = .text then
    ({ st with textPos := some (x, y), textInput := "" }, [])
  else if st.tool = .sticky then
    let note : Obj := .sticky ("sticky-" ++ toString now) x y
      "Double-click to edit" st.stickyColor
    (applyLocal st note, [COut.addObject note])
  else (st, [])

/-- `handleMouseMove`: always emits the cursor position; extends the live
stroke while freehand-drawing.  The `setPreview` calls for shape tools are
pure rendering state and are not part of the object model. -/
def handleMouseMove (st : ClientState) (x y : Int) (userName myColor : String) :
    ClientState × List COut :=
  let st1 :=
    if penLike st.tool && st.isDrawing then
      { st with livePoints := st.livePoints ++ [x, y] }
    else st
  (st1, [COut.cursorMove x y userName myColor st.isDrawing])

/-- The freehand part of `handleMouseUp`: when a live stroke with at least
one point exists, finish it through the mutating-action protocol and emit
`draw`; the live buffer is always cleared. -/
def penUpPhase (st : ClientState) (now : Int) : ClientState × List COut :=
  if penLike st.tool && st.isDrawing then
    let pts := st.livePoints
    if 2 ≤ pts.length then
      let obj := mkStroke st pts now
      ({ applyLocal { st with isDrawing := false } obj with livePoints := [] },
       [COut.draw obj])
    else ({ st with isDrawing := false, livePoints := [] }, [])
  else (st, [])

/-- The `shapeStart` part of `handleMouseUp`: with a recorded start and a
pointer position, a shape tool finishes its object through the
mutating-action protocol and emits `addObject`; `shapeStart` is cleared. -/
def shapeUpPhase (st : ClientState) (pos : Option (Int × Int)) (now : Int) :
    ClientState × List COut :=
  match st.shapeStart, pos with
  | some s, some p =>
    (match mkShape st s p now with
     | some obj => ({ applyLocal st obj with shapeStart := none },
         [COut.addObject obj])
     | none => ({ st with shapeStart := none }, []))
  | _, _ => (st, [])

/-- `handleMouseUp`: emits `presenceUpdate(false)`, then runs the freehand
branch followed by the shape branch. -/
def handleMouseUp (st : ClientState) (pos : Option (Int × Int)) (now : Int) :
    ClientState × List COut :=
  let r1 := penUpPhase st now
  let r2 := shapeUpPhase r1.1 pos now
  (r2.1, [COut.presenceUpdate false] ++ r1.2 ++ r2.2)

/-- `handleTextSubmit`: guarded on a non-blank input and an open overlay;
places the text object through the mutating-action protocol and emits it. -/
def handleTextSubmit (st : ClientState) (now : Int) : ClientState × List COut :=
  if st.textInput.trim = "" ∨ st.textPos = none then (st, [])
  else
    let p := st.textPos.getD (0, 0)
    let obj : Obj := .textShape ("txt-" ++ toString now) p.1 p.2 st.textInput
      st.color st.fontSize st.fontFamily st.bold st.italic
    ({ applyLocal st obj with textPos := none, textInput := "" },
     [COut.addObject obj])

/-- `saveStickyEdit`: replaces the edited note's text in place and emits
`stickyUpdate` (not part of the undo protocol). -/
def saveStickyEdit (st : ClientState) (editingId : Option String)
    (newText : String) : ClientState × List COut :=
  match editingId with
  | none => (st, [])
  | some i =>
    ({ st with objects := (st.objects.map
        (fun o => if o.oid = i && o.isSticky then o.withText newText else o)) },
     [COut.stickyUpdate i newText])

/-- The `drawUpdate` listener: append the peer's stroke to the local sequence. -/
def onDrawUpdate (st : ClientState) (d : Obj) : ClientState :=
  { st with objects := st.objects ++ [d] }

/-- The `objectAdded` listener: append the peer's object to the local sequence. -/
def onObjectAdded (st : ClientState) (d : Obj) : ClientState :=
  { st with objects := st.objects ++ [d] }

/-- The `stickyUpdated` listener: replace the matching sticky note's text. -/
def onStickyUpdated (st : ClientState) (i : String) (t : String) : ClientState :=
  { st with objects := (st.objects.map
      (fun o => if o.oid = i && o.isSticky then o.withText t else o)) }

/-- The `drawPermission` listener: the target adopts the granted flag. -/
def onDrawPermission (st : ClientState) (granted : Bool) : ClientState :=
  { st with isAllowedToDraw := granted }

/-- A concrete Board state used by witness instantiations: a fresh host with
the source's initial tool and style settings and an empty canvas. -/
def demoClient : ClientState :=
  { objects := []
    undoStack := []
    redoStack := []
    isHost := true
    isAllowedToDraw := false
    isReadOnly := false
    tool := .pen
    isDrawing := false
    livePoints := []
    shapeStart := none
    textPos := none
    textInput := ""
    color := "#00d4ff"
    strokeWidth := 3
    opacityPct := 100
    lineStyle := .solid
    stickyColor := "#ffd43b"
    fontFamily := "DM Sans"
    fontSize := 18
    bold := false
    italic := false }

/-!
Claim theorems: client object model and undo engine.
-/

/-- C4: performing a single local mutating action (the protocol that pushes a
snapshot of the current sequence, clears the redo stack, and appends the new
object) and then `undo()` restores exactly the prior object sequence, and
`redo()` after `undo()` restores exactly the post-action state, for every
starting state and appended object. -/
theorem c4_undo_redo_laws (st : ClientState) (o : Obj) :
    (handleUndo (applyLocal st o)).objects = st.objects ∧
    handleRedo (handleUndo (applyLocal st o)) = applyLocal st o := by
  constructor
  · simp [handleUndo, applyLocal, saveToUndo, List.getLast?_concat]
  · simp [handleUndo, handleRedo, applyLocal, saveToUndo, List.getLast?_concat,
      List.dropLast_concat]

/-- C5 (amended): a received peer event (`drawUpdate`, `objectAdded`,
`stickyUpdated`) is applied to the local object sequence without pushing an
undo snapshot and without clearing the redo stack — both stacks are preserved
exactly while the sequence is appended to (resp. merged in place). -/
theorem c5_peer_events_bypass_undo (st : ClientState) (d : Obj) (i t : String) :
    (onDrawUpdate st d).undoStack = st.undoStack ∧
    (onDrawUpdate st d).redoStack = st.redoStack ∧
    (onDrawUpdate st d).objects = st.objects ++ [d] ∧
    (onObjectAdded st d).undoStack = st.undoStack ∧
    (onObjectAdded st d).redoStack = st.redoStack ∧
    (onObjectAdded st d).objects = st.objects ++ [d] ∧
    (onStickyUpdated st i t).undoStack = st.undoStack ∧
    (onStickyUpdated st i t).redoStack = st.redoStack := by
  simp [onDrawUpdate, onObjectAdded, onStickyUpdated]

/-- C5 counterexample: the claim's consequence fails — a peer's change CAN be
removed by the recipient's own `undo()`.  Starting from an empty board, the
recipient performs one local action, then receives a peer stroke, then calls
`undo()`: the popped snapshot predates the peer event, so the peer stroke
disappears from the recipient's sequence. -/
theorem c5_cex :
    let peer : Obj := .line "p" [0, 0, 1, 1] "#ff6b6b" 3 100 none
    let mine : Obj := .line "m" [2, 2, 3, 3] "#00d4ff" 3 100 none
    let afterRecv := onDrawUpdate (applyLocal demoClient mine) peer
    peer ∈ afterRecv.objects ∧ peer ∉ (handleUndo afterRecv).objects := by
  decide

/-- C7: every local mutating action reachable from the mouse/text handlers
(freehand stroke completion, discrete shape completion, sticky placement,
text placement) that changes the object sequence pushes a full snapshot of
the prior sequence onto the undo stack and leaves the redo stack empty,
regardless of the redo stack's prior contents. -/
theorem c7_mutation_pushes_undo_clears_redo (st : ClientState)
    (x y now : Int) (pos : Option (Int × Int)) :
    ((handleMouseDown st x y now).1.objects ≠ st.objects →
      (handleMouseDown st x y now).1.undoStack = st.undoStack ++ [st.objects] ∧
      (handleMouseDown st x y now).1.redoStack = []) ∧
    ((handleMouseUp st pos now).1.objects ≠ st.objects →
      (handleMouseUp st pos now).1.undoStack = st.undoStack ++ [st.objects] ∧
      (handleMouseUp st pos now).1.redoStack = []) ∧
    ((handleTextSubmit st now).1.objects ≠ st.objects →
      (handleTextSubmit st now).1.undoStack = st.undoStack ++ [st.objects] ∧
      (handleTextSubmit st now).1.redoStack = []) := by
  refine ⟨?_, ?_, ?_⟩
  · unfold handleMouseDown applyLocal saveToUndo
    split_ifs <;> simp
  · cases hS : st.shapeStart <;> cases pos <;>
      cases hT : st.tool <;>
      simp [handleMouseUp, penUpPhase, shapeUpPhase, mkShape, mkStroke,
        penLike, applyLocal, saveToUndo, hS, hT] <;>
      split_ifs <;> simp_all
  · unfold handleTextSubmit applyLocal saveToUndo
    split_ifs <;> simp

/-- C7 witness: a concrete host completing a sticky placement really mutates
the sequence, and the theorem yields the pushed snapshot and empty redo. -/
theorem c7_witness :
    let st : ClientState :=
      { demoClient with tool := .sticky, redoStack := [[]] }
    (handleMouseDown st 4 5 9).1.objects ≠ st.objects ∧
    (handleMouseDown st 4 5 9).1.undoStack = st.undoStack ++ [st.objects] ∧
    (handleMouseDown st 4 5 9).1.redoStack = [] := by
  refine ⟨by decide, (c7_mutation_pushes_undo_clears_redo _ 4 5 9 none).1 (by decide)⟩

/-- C8: a participant whose local role is Viewer (`canDraw` false, not in a
drag started earlier) gets no effect and no `draw`/`addObject` emission from
any mouse interaction: `handleMouseDown` is rejected outright, and
`handleMouseMove`/`handleMouseUp` leave the state unchanged and emit only
cursor/presence events. -/
theorem c8_viewer_cannot_draw (st : ClientState) (x y now : Int)
    (pos : Option (Int × Int)) (un uc : String)
    (h1 : canDraw st = false) (h2 : st.isDrawing = false)
    (h3 : st.shapeStart = none) :
    handleMouseDown st x y now = (st, []) ∧
    handleMouseMove st x y un uc = (st, [COut.cursorMove x y un uc false]) ∧
    handleMouseUp st pos now = (st, [COut.presenceUpdate false]) := by
  refine ⟨?_, ?_, ?_⟩
  · simp [handleMouseDown, h1]
  · simp [handleMouseMove, h2]
  · simp [handleMouseUp, penUpPhase, shapeUpPhase, h2, h3]

/-- C8 witness: a concrete viewer state with the pen tool selected. -/
theorem c8_witness :
    let viewer : ClientState := { demoClient with isHost := false }
    canDraw viewer = false ∧
    handleMouseDown viewer 1 2 7 = (viewer, []) ∧
    handleMouseUp viewer (some (3, 4)) 7 = (viewer, [COut.presenceUpdate false]) := by
  refine ⟨by decide, ?_, ?_⟩
  · exact (c8_viewer_cannot_draw _ 1 2 7 (some (3, 4)) "v" "#00d4ff"
      (by decide) (by decide) (by decide)).1
  · exact (c8_viewer_cannot_draw _ 1 2 7 (some (3, 4)) "v" "#00d4ff"
      (by decide) (by decide) (by decide)).2.2

/-- C10: `undo()` with an empty undo stack, and `redo()` with an empty redo
stack, are complete no-ops — object sequence, undo stack and redo stack are
all unchanged (the whole state is returned as-is). -/
theorem c10_empty_stack_noop (st : ClientState) :
    (st.undoStack = [] → handleUndo st = st) ∧
    (st.redoStack = [] → handleRedo st = st) := by
  constructor
  · intro h; simp [handleUndo, h]
  · intro h; simp [handleRedo, h]

/-- C10 witness: both no-ops at a concrete state with a non-empty sequence. -/
theorem c10_witness :
    let st : ClientState :=
      { demoClient with objects := [.sticky "s" 0 0 "hello" "#ffd43b"] }
    st.undoStack = [] ∧ st.redoStack = [] ∧
    handleUndo st = st ∧ handleRedo st = st := by
  refine ⟨rfl, rfl, (c10_empty_stack_noop _).1 rfl, (c10_empty_stack_noop _).2 rfl⟩

/-!
Claim theorems: permission controller and broadcast router.
-/

/-- C1: when the requester holds Host state for the room,
`setDrawPermission` updates the authoritative allowed-set for that room —
the target is in the set exactly when the flag grants — and delivers exactly
one `drawPermission` notification carrying that flag, to the target
connection and nobody else; when the requester is not the Host the call is a
complete no-op (state and deliveries). -/
theorem c1_set_draw_permission (ps : PermState) (r : RoomId)
    (req tgt : ConnId) (g : Bool) :
    (alookup ps.host r = some req →
      (setDrawPermission ps r req tgt g).2 = [(tgt, SMsg.drawPermission g)] ∧
      (setDrawPermission ps r req tgt g).1.host = ps.host ∧
      (g = true →
        tgt ∈ ((alookup (setDrawPermission ps r req tgt g).1.allowed r).getD [])) ∧
      (g = false →
        tgt ∉ ((alookup (setDrawPermission ps r req tgt g).1.allowed r).getD []))) ∧
    (¬alookup ps.host r = some req →
      setDrawPermission ps r req tgt g = (ps, [])) := by
  constructor
  · intro h
    refine ⟨by simp [setDrawPermission, h], by simp [setDrawPermission, h], ?_, ?_⟩
    · intro hg
      subst hg
      simp only [setDrawPermission, h, if_pos, if_true]
      rw [alookup_aset_self]
      simp only [Option.getD_some]
      split
      · assumption
      · simp
    · intro hg
      subst hg
      simp only [setDrawPermission, h, if_pos, if_false]
      rw [alookup_aset_self]
      simp [List.mem_filter]
  · intro h
    simp [setDrawPermission, h]

/-- C1 witness: a concrete room where the Host grants then the grant shows in
the allowed-set and exactly the target is notified; a non-host call no-ops. -/
theorem c1_witness :
    let ps : PermState := { host := [("room1", "h")], allowed := [] }
    alookup ps.host "room1" = some "h" ∧
    (setDrawPermission ps "room1" "h" "v" true).2 =
      [("v", SMsg.drawPermission true)] ∧
    "v" ∈ ((alookup (setDrawPermission ps "room1" "h" "v" true).1.allowed
      "room1").getD []) ∧
    ¬alookup ps.host "room1" = some "v" ∧
    setDrawPermission ps "room1" "v" "h" true = (ps, []) := by
  refine ⟨by decide, ?_, ?_, by decide, ?_⟩
  · exact ((c1_set_draw_permission _ "room1" "h" "v" true).1 (by decide)).1
  · exact ((c1_set_draw_permission _ "room1" "h" "v" true).1 (by decide)).2.2.1 rfl
  · exact (c1_set_draw_permission _ "room1" "v" "h" true).2 (by decide)

/-- C2: for a sender whose current room is `r`, each relayed event kind
(freehand `draw`, discrete `addObject`, sticky-note text update, chat
message) is delivered with its payload unmodified to exactly the members of
`r`'s channel other than the sender: the delivery list is precisely the
member list minus the sender, every such member receives the payload, and
every delivery goes to a member of `r` distinct from the sender with the
unmodified payload.  The server state is unchanged. -/
theorem c2_relay_fanout {α : Type} (st : SrvState) (c : ConnId) (r : RoomId)
    (d1 d2 d3 d4 : α) (h1 : alookup st.currentRoom c = some r) (h2 : r ≠ "") :
    handleDraw st c d1 =
      (st, ((channelMembers st r).filter (fun m => m ≠ c)).map
        (fun m => (m, SMsg.drawUpdate d1))) ∧
    handleAddObject st c d2 =
      (st, ((channelMembers st r).filter (fun m => m ≠ c)).map
        (fun m => (m, SMsg.objectAdded d2))) ∧
    handleStickyUpdate st c d3 =
      (st, ((channelMembers st r).filter (fun m => m ≠ c)).map
        (fun m => (m, SMsg.stickyUpdated d3))) ∧
    handleChat st c (some r) d4 =
      (st, ((channelMembers st r).filter (fun m => m ≠ c)).map
        (fun m => (m, SMsg.chatMsg d4))) ∧
    (∀ m, m ∈ channelMembers st r → m ≠ c →
      (m, SMsg.drawUpdate d1) ∈ (handleDraw st c d1).2 ∧
      (m, SMsg.objectAdded d2) ∈ (handleAddObject st c d2).2 ∧
      (m, SMsg.stickyUpdated d3) ∈ (handleStickyUpdate st c d3).2 ∧
      (m, SMsg.chatMsg d4) ∈ (handleChat st c (some r) d4).2) ∧
    (∀ m msg,
      ((m, msg) ∈ (handleDraw st c d1).2 ∨
       (m, msg) ∈ (handleAddObject st c d2).2 ∨
       (m, msg) ∈ (handleStickyUpdate st c d3).2 ∨
       (m, msg) ∈ (handleChat st c (some r) d4).2) →
      m ∈ channelMembers st r ∧ m ≠ c) := by
  have hfr : falsyS (some r) = false := by simpa [falsyS] using h2
  have hD : handleDraw st c d1 =
      (st, ((channelMembers st r).filter (fun m => m ≠ c)).map
        (fun m => (m, SMsg.drawUpdate d1))) := by
    simp only [handleDraw, h1, hfr, Bool.false_eq_true, if_false, Option.getD_some]
  have hA : handleAddObject st c d2 =
      (st, ((channelMembers st r).filter (fun m => m ≠ c)).map
        (fun m => (m, SMsg.objectAdded d2))) := by
    simp only [handleAddObject, h1, hfr, Bool.false_eq_true, if_false, Option.getD_some]
  have hS : handleStickyUpdate st c d3 =
      (st, ((channelMembers st r).filter (fun m => m ≠ c)).map
        (fun m => (m, SMsg.stickyUpdated d3))) := by
    simp only [handleStickyUpdate, h1, hfr, Bool.false_eq_true, if_false,
      Option.getD_some]
  have hC : handleChat st c (some r) d4 =
      (st, ((channelMembers st r).filter (fun m => m ≠ c)).map
        (fun m => (m, SMsg.chatMsg d4))) := by
    simp only [handleChat, hfr, Bool.false_eq_true, if_false, Option.getD_some]
  refine ⟨hD, hA, hS, hC, ?_, ?_⟩
  · intro m hm hmc
    refine ⟨?_, ?_, ?_, ?_⟩ <;>
      simp only [hD, hA, hS, hC, List.mem_map, List.mem_filter] <;>
      exact ⟨m, by simp [hm, hmc], rfl⟩
  · intro m msg hmem
    rcases hmem with h | h | h | h <;>
      simp only [hD, hA, hS, hC, List.mem_map, List.mem_filter] at h <;>
      obtain ⟨x, hx, hx3⟩ := h <;>
      · cases hx3
        exact ⟨hx.1, by simpa using hx.2⟩

/-- A concrete three-member coordinator state used by witness instantiations. -/
def demoSrv : SrvState :=
  { roomUsers := [("R", [("a", userOf "a" none none),
      ("b", userOf "b" none none), ("d", userOf "d" none none)])]
    channels := [("a", "R"), ("b", "R"), ("d", "R")]
    currentRoom := [("a", "R"), ("b", "R"), ("d", "R")]
    names := []
    colors := []
    conns := ["a", "b", "d", "ghost"] }

/-- C2 witness: in the three-member room `R`, `a` draws; `b` and `d` receive
the unmodified payload and `a` does not. -/
theorem c2_witness :
    alookup demoSrv.currentRoom "a" = some "R" ∧
    handleDraw demoSrv "a" (42 : Nat) =
      (demoSrv, [("b", SMsg.drawUpdate 42), ("d", SMsg.drawUpdate 42)]) := by
  refine ⟨by decide, ?_⟩
  have h := (c2_relay_fanout demoSrv "a" "R" (42 : Nat) 42 42 42 (by decide)
    (by decide)).1
  rw [h]
  decide

/-- C9: an inbound cursor, draw, or add-object event from a connection whose
current room is missing (no `currentRoom`, or the falsy empty string), and a
chat event whose payload carries no (truthy) room id, are dropped without any
effect: the state is returned unchanged and no message is delivered. -/
theorem c9_missing_room_dropped {α : Type} (st : SrvState) (c : ConnId)
    (x y : Int) (n col : Option String) (bid : Option String) (d m : α) :
    (falsyS (alookup st.currentRoom c) = true →
      handleCursorMove st c x y n col = (st, ([] : List (ConnId × SMsg α))) ∧
      handleDraw st c d = (st, []) ∧
      handleAddObject st c d = (st, [])) ∧
    (falsyS bid = true → handleChat st c bid m = (st, [])) := by
  constructor
  · intro h
    exact ⟨by simp [handleCursorMove, h], by simp [handleDraw, h],
      by simp [handleAddObject, h]⟩
  · intro h
    simp [handleChat, h]

/-- C9 witness: a connection that never joined a room, and a chat without a
room id, at a concrete state with a populated room. -/
theorem c9_witness :
    falsyS (alookup demoSrv.currentRoom "ghost") = true ∧
    handleDraw demoSrv "ghost" (7 : Nat) = (demoSrv, []) ∧
    handleChat demoSrv "b" none (7 : Nat) = (demoSrv, []) := by
  refine ⟨by decide, ?_, ?_⟩
  · exact ((c9_missing_room_dropped demoSrv "ghost" 0 0 none none none
      (7 : Nat) 7).1 (by decide)).2.1
  · exact (c9_missing_room_dropped demoSrv "b" 0 0 none none none (7 : Nat)
      7).2 (by decide)

/-!
Claim theorems: room registry lifecycle and member-list broadcasts.
-/

theorem aerase_singleton_key {β : Type} (l : List (String × β)) (c : String)
    (h : l.map Prod.fst = [c]) : aerase l c = [] := by
  cases l with
  | nil => simp at h
  | cons p tail =>
    simp only [List.map_cons, List.cons.injEq] at h
    obtain ⟨h1, h2⟩ := h
    have htail : tail = [] := by
      cases tail with
      | nil => rfl
      | cons q t2 => simp at h2
    subst htail
    simp [aerase, h1]

/-- C3 (amended): under the spec's join contract — every join is performed by
a freshly-connected socket (a connection id is assigned at connect time and a
connected socket never re-joins a different room) — after every finite
well-formed sequence of join and leave operations, every `roomUsers` member
list broadcast by the next operation names exactly the set of connections
currently joined to the affected room, is delivered only to members of that
room, and is delivered to all of them, including a newly joined one. -/
theorem c3_member_list_matches_membership (T : List Op) (o : Op)
    (hT : wfTrace SrvState.empty T = true)
    (ho : wfOp (run SrvState.empty T) o = true) :
    (∀ tgt users,
      (tgt, SMsg.roomUsersMsg users) ∈ (step (run SrvState.empty T) o).2 →
      ∃ r, users.map User.id = joinedTo (step (run SrvState.empty T) o).1 r ∧
        tgt ∈ joinedTo (step (run SrvState.empty T) o).1 r ∧
        ∀ m, m ∈ joinedTo (step (run SrvState.empty T) o).1 r →
          (m, SMsg.roomUsersMsg users) ∈ (step (run SrvState.empty T) o).2) ∧
    (∀ c r n col, o = Op.join c r n col →
      ∃ users, (c, SMsg.roomUsersMsg users) ∈ (step (run SrvState.empty T) o).2) :=
  step_broadcast (inv_run inv_empty hT) ho

/-- C3 counterexample: the claim as stated fails for a re-homed connection.
`c` joins room `A`, then joins room `B` on the same socket, then disconnects;
when `d` later joins `A`, the member list broadcast to `d` still names the
departed `c` (`["c", "d"]`), while the set of connections joined to `A` is
just `["d"]` and `c` is no longer connected at all. -/
theorem c3_stale_member_cex :
    ((step (run SrvState.empty
        [Op.join "c" "A" none none, Op.join "c" "B" none none, Op.disc "c"])
        (Op.join "d" "A" none none)).2.filterMap
      (fun pm => match pm.2 with
        | SMsg.roomUsersMsg users => some (pm.1, users.map User.id)
        | _ => none)) = [("d", ["c", "d"])] ∧
    joinedTo (step (run SrvState.empty
        [Op.join "c" "A" none none, Op.join "c" "B" none none, Op.disc "c"])
        (Op.join "d" "A" none none)).1 "A" = ["d"] ∧
    "c" ∉ (step (run SrvState.empty
        [Op.join "c" "A" none none, Op.join "c" "B" none none, Op.disc "c"])
        (Op.join "d" "A" none none)).1.conns := by
  refine ⟨by decide, by decide, by decide⟩

/-- C3 witness: a fresh `y` joining room `A` (already inhabited by `x`)
receives a member-list broadcast itself. -/
theorem c3_witness :
    wfTrace SrvState.empty [Op.join "x" "A" none none] = true ∧
    wfOp (run SrvState.empty [Op.join "x" "A" none none])
      (Op.join "y" "A" none none) = true ∧
    (∃ users, ("y", SMsg.roomUsersMsg users) ∈
      (step (run SrvState.empty [Op.join "x" "A" none none])
        (Op.join "y" "A" none none)).2) := by
  refine ⟨by decide, by decide, ?_⟩
  exact (c3_member_list_matches_membership [Op.join "x" "A" none none]
    (Op.join "y" "A" none none) (by decide) (by decide)).2 "y" "A" none none rfl

/-- C6 (amended): under the spec's join contract (fresh connection per join,
as in C3), a room entry in the registry always holds a non-empty member map,
a room with no entry has no joined connections and vice versa, an entry
exists for a room id right after a join to it, and when the sole remaining
joined connection of a room disconnects, the room's entry is deleted.  The
claim as stated fails only for a re-homed connection (see the
counterexample), which leaves a permanent entry. -/
theorem c6_room_lifecycle (T : List Op)
    (hT : wfTrace SrvState.empty T = true) :
    (∀ r m, alookup (run SrvState.empty T).roomUsers r = some m → m ≠ []) ∧
    (∀ r, alookup (run SrvState.empty T).roomUsers r = none →
      joinedTo (run SrvState.empty T) r = []) ∧
    (∀ r, joinedTo (run SrvState.empty T) r ≠ [] →
      ∃ m, alookup (run SrvState.empty T).roomUsers r = some m) ∧
    (∀ c r n col, wfOp (run SrvState.empty T) (Op.join c r n col) = true →
      ∃ m, alookup (run SrvState.empty
        (T ++ [Op.join c r n col])).roomUsers r = some m) ∧
    (∀ c r, joinedTo (run SrvState.empty T) r = [c] →
      alookup (run SrvState.empty (T ++ [Op.disc c])).roomUsers r = none) := by
  have hInv : Inv (run SrvState.empty T) := inv_run inv_empty hT
  refine ⟨hInv.roomsNonempty, ?_, ?_, ?_, ?_⟩
  · intro r hnone
    have h2 := hInv.usersIds r
    rw [hnone] at h2
    simpa using h2.symm
  · intro r hne
    rcases hRU : alookup (run SrvState.empty T).roomUsers r with _ | m
    · exfalso
      have h2 := hInv.usersIds r
      rw [hRU] at h2
      simp only [Option.getD_none, List.map_nil] at h2
      exact hne h2.symm
    · exact ⟨m, rfl⟩
  · intro c r n col hwf
    rw [run_append]
    simp only [wfOp, Bool.and_eq_true, Bool.not_eq_true',
      decide_eq_false_iff_not, decide_eq_true_eq] at hwf
    have hfst : (step (run SrvState.empty T) (Op.join c r n col)).1 =
        joinNext (run SrvState.empty T) c r n col := by
      simp only [step]
      exact handleJoin_fst hInv hwf.1
    rw [hfst]
    simp only [joinNext]
    exact ⟨_, alookup_aset_self _ _ _⟩
  · intro c r hone
    rw [run_append]
    have hcm : c ∈ joinedTo (run SrvState.empty T) r := by
      rw [hone]
      exact List.mem_singleton.2 rfl
    have hc : c ∈ (run SrvState.empty T).conns := List.mem_of_mem_filter hcm
    have hcur : alookup (run SrvState.empty T).currentRoom c = some r := by
      have := List.of_mem_filter hcm
      simpa using this
    have hrne : r ≠ "" := (hInv.curLive c r hcur).2
    obtain ⟨room0, hRU⟩ := roomMap_of_joined hInv hc hcur
    have hids : room0.map Prod.fst = [c] := by
      have h2 := hInv.usersIds r
      rw [hRU] at h2
      simp only [Option.getD_some] at h2
      rw [h2, hone]
    have hempty : aerase room0 c = [] := aerase_singleton_key _ _ hids
    have hfst : (step (run SrvState.empty T) (Op.disc c)).1 =
        discNext (run SrvState.empty T) c r room0 := by
      simp only [step]
      rw [handleDisconnect_eq hcur hrne hRU]
    rw [hfst]
    simp only [discNext, if_pos hempty]
    apply alookup_aerase_self
    rw [map_fst_aset_mem _ _ _ (mem_keys_of_alookup _ _ _ hRU)]
    exact hInv.rkeysNodup

/-- C6 counterexample: the claim as stated fails for a re-homed connection.
`c` joins `A`, then joins `B` on the same socket, then disconnects — `c` was
the sole member of `A` and is now gone (no connection remains at all), yet
`A`'s entry is still in the registry, so room state for `A` remains in
memory after its last member disconnected. -/
theorem c6_stale_room_cex :
    (run SrvState.empty
      [Op.join "c" "A" none none, Op.join "c" "B" none none,
        Op.disc "c"]).conns = [] ∧
    (alookup (run SrvState.empty
      [Op.join "c" "A" none none, Op.join "c" "B" none none,
        Op.disc "c"]).roomUsers "A").isSome = true := by
  refine ⟨by decide, by decide⟩

/-- C6 witness: `x` alone joins `A`; the entry exists, and after `x`'s
disconnect the registry no longer holds an entry for `A`. -/
theorem c6_witness :
    wfTrace SrvState.empty [Op.join "x" "A" none none] = true ∧
    joinedTo (run SrvState.empty [Op.join "x" "A" none none]) "A" = ["x"] ∧
    alookup (run SrvState.empty
      ([Op.join "x" "A" none none] ++ [Op.disc "x"])).roomUsers "A" = none := by
  refine ⟨by decide, by decide, ?_⟩
  exact (c6_room_lifecycle [Op.join "x" "A" none none] (by decide)).2.2.2.2
    "x" "A" (by decide)

end WB
